import Mathlib

/-!
Verification of the sqlite read-only engine's core against its specification.

The definitions below are shallow embeddings of the Rust source:

* `varIntFromBuffer`   embeds `VarInt::from_buffer`   (src/disk/var_int.rs, identical
  loop in src/structures/var_int.rs and src/varint.rs);
* `pageTypeFlagNew` / `pageKindFlagNew` / `pageFlagNew` embed `PageTypeFlag::new`,
  `PageKindFlag::new` and `PageFlag::new` (src/btree/page/...);
* `getPage` embeds `Pager::get_page` (src/ctx/pager.rs);
* `payloadFromBufWithPayloadSize` embeds `Payload::from_buf_with_payload_size`
  (src/btree/payload.rs, same arithmetic in src/structures/btree/cell/payload.rs);
* `chainCopyToSlice` embeds `Chain::pages` / `Chain::copy_to_slice` (src/memory/chain.rs);
* `recordFromBuf` embeds `Record::from_buf` (src/record.rs);
* `traverseAll` / `travStep` / `pullFuel` embed `traverse` (src/btree/mod.rs).

Machine integers are modelled as `Nat` / `Int`; wrapping of Rust's fixed-width
arithmetic is made explicit with `% 2 ^ 32` / `% 2 ^ 64` where the source can
overflow.  Rust panics (failed `unwrap`, `assert!`, out-of-bounds slicing, and
the bound assertions inside `ux::i24::new` / `ux::i48::new`) are modelled as
`Except` errors.
-/

/-- Reduce a bit pattern modulo `2 ^ 64`, the wrapping of Rust's 64-bit arithmetic. -/
def wrap64 (n : Nat) : Nat := n % (2 ^ 64)

/-- Reinterpret a 64-bit pattern as a signed two's-complement value (`i64`). -/
def i64OfBits (n : Nat) : Int := if n < 2 ^ 63 then (n : Int) else (n : Int) - 2 ^ 64

/-- Interpret the low `w` bits of `n` as a signed two's-complement value. -/
def toSigned (w n : Nat) : Int := if n % 2 ^ w < 2 ^ (w - 1) then (n % 2 ^ w : Nat) else (n % 2 ^ w : Nat) - (2 ^ w : Nat)

/-- Loop body of `VarInt::from_buffer`: iterate over at most 9 bytes (`take(9)`),
threading the loop index `i` and the accumulated bit pattern `value`.  Each
iteration advances the slice (`buf = &buf[1..]`), masks the byte with
`0xff >> (1 - i / 8)`, shifts the accumulator by `7 + i / 8` and adds the
masked byte; a byte with a clear high bit terminates the loop. -/
def varIntFromBufferAux : List Nat → Nat → Nat → Nat × List Nat
  | [], _, value => (value, [])
  | b :: rest, i, value =>
    if 9 ≤ i then (value, b :: rest)
    else
      let mask := 0xff >>> (1 - i / 8)
      let shift := 7 + i / 8
      let value := wrap64 ((value <<< shift) + (b &&& mask))
      if b >>> 7 = 0 then (value, rest)
      else varIntFromBufferAux rest (i + 1) value

/-- Embedding of `VarInt::from_buffer`: decode a varint from the front of a byte
slice, returning the `i64` value and the remaining suffix. -/
def varIntFromBuffer (buf : List Nat) : Int × List Nat :=
  let r := varIntFromBufferAux buf 0 0
  (i64OfBits r.1, r.2)

/-- Helper: the loop consumes some `k ≤ 9 - i` bytes and returns the matching suffix. -/
theorem varIntFromBufferAux_drop : ∀ (buf : List Nat) (i value : Nat),
    ∃ k, k ≤ 9 - i ∧ k ≤ buf.length ∧ (varIntFromBufferAux buf i value).2 = buf.drop k := by
  intro buf
  induction buf with
  | nil =>
    intro i value
    exact ⟨0, by simp [varIntFromBufferAux]⟩
  | cons b rest ih =>
    intro i value
    by_cases h9 : 9 ≤ i
    · exact ⟨0, by simp [varIntFromBufferAux, h9]⟩
    · by_cases hb : b >>> 7 = 0
      · refine ⟨1, ?_, by simp, ?_⟩
        · omega
        · simp [varIntFromBufferAux, h9, hb]
      · obtain ⟨k, hk9, hklen, hkdrop⟩ :=
          ih (i + 1) (wrap64 ((value <<< (7 + i / 8)) + (b &&& (0xff >>> (1 - i / 8)))))
        refine ⟨k + 1, by omega, by simp; omega, ?_⟩
        simp only [varIntFromBufferAux, if_neg h9, if_neg hb]
        simpa using hkdrop

/-- C2 counterexample: decoding `[0xFF ×8, 0x7F]` does not return `i64::MAX`
(`2 ^ 63 - 1`).  Bytes 1-8 contribute their low 7 bits (all ones) and byte 9
contributes all 8 bits (`0x7F`), giving the 64-bit pattern
`0xFFFF_FFFF_FFFF_FF7F`, which as a two's-complement `i64` is `-129`. -/
theorem c2_counterexample :
    varIntFromBuffer [0xFF, 0xFF, 0xFF, 0xFF, 0xFF, 0xFF, 0xFF, 0xFF, 0x7F] = (-129, []) ∧
      (-129 : Int) ≠ 2 ^ 63 - 1 := by
  constructor
  · decide
  · decide

/-- C2 amended: decoding a varint from an input whose first 9 bytes are
`[0xFF ×8, 0x7F]` returns the value `-129` (the two's-complement reading of the
64-bit pattern assembled from the low 7 bits of bytes 1-8 and all 8 bits of
byte 9) with exactly 9 bytes consumed.  A trailing sentinel byte `0xAB` is left
untouched, witnessing that exactly 9 bytes are consumed. -/
theorem c2_amended :
    varIntFromBuffer [0xFF, 0xFF, 0xFF, 0xFF, 0xFF, 0xFF, 0xFF, 0xFF, 0x7F, 0xAB] =
      (-129, [0xAB]) := by
  decide

/-- C10: `VarInt::from_buffer` is total and never reports an error: for every
input byte slice it returns a value and a suffix of the input, consuming at
most 9 bytes (and never more than the input holds); on the empty slice it
returns value `0` with `0` bytes consumed. -/
theorem c10_totality (buf : List Nat) :
    (varIntFromBuffer buf).2.length ≤ buf.length ∧
      buf.length - (varIntFromBuffer buf).2.length ≤ 9 ∧
      (varIntFromBuffer buf).2 = buf.drop (buf.length - (varIntFromBuffer buf).2.length) ∧
      varIntFromBuffer [] = (0, []) := by
  obtain ⟨k, hk9, hklen, hkdrop⟩ := varIntFromBufferAux_drop buf 0 0
  have h2 : (varIntFromBuffer buf).2 = buf.drop k := by
    simpa [varIntFromBuffer] using hkdrop
  have hlen : (varIntFromBuffer buf).2.length = buf.length - k := by
    simp [h2]
  refine ⟨by omega, by omega, ?_, by decide⟩
  rw [hlen, h2]
  have hkk : buf.length - (buf.length - k) = k := by omega
  rw [hkk]

/-- Page type, as decoded from the low three bits of the flag byte
(`PageTypeFlag` in src/btree/page/page_type/mod.rs). -/
inductive PageTypeFlag where
  | table
  | index
deriving DecidableEq

/-- Page kind, as decoded from bit 3 of the flag byte
(`PageKindFlag` in src/btree/page/page_kind/mod.rs). -/
inductive PageKindFlag where
  | leaf
  | interior
deriving DecidableEq

/-- Embedding of `PageTypeFlag::new`: mask the flag byte with `0b0111` and
accept `0b101` (table) or `0b010` (index). -/
def pageTypeFlagNew (flag : Nat) : Option PageTypeFlag :=
  match flag &&& 0b0111 with
  | 0b101 => some .table
  | 0b010 => some .index
  | _ => none

/-- Embedding of `PageKindFlag::new`: mask the flag byte with `0b1000` and
map `0b1000` to leaf and `0b0000` to interior (this never fails). -/
def pageKindFlagNew (flag : Nat) : Option PageKindFlag :=
  match flag &&& 0b1000 with
  | 0b1000 => some .leaf
  | 0b0000 => some .interior
  | _ => none

/-- Embedding of `PageFlag::new` (src/btree/page/mod.rs): decode the kind and
the type from the same flag byte; `none` makes the caller panic
(`expect("valid page flag")`), there is no `BadFlag` error value in the code. -/
def pageFlagNew (flag : Nat) : Option (PageKindFlag × PageTypeFlag) := do
  let kind ← pageKindFlagNew flag
  let ty ← pageTypeFlagNew flag
  pure (kind, ty)

/-- C6 counterexample: the flag byte `0x12` is accepted by the page-header flag
decoder (bits 4-7 are masked away, so `0x12` decodes like `0x02` to an interior
index page) even though it is not one of the four values 0x02, 0x05, 0x0a,
0x0d; the claimed "accepts if and only if" is therefore false. -/
theorem c6_counterexample :
    pageFlagNew 0x12 = some (PageKindFlag.interior, PageTypeFlag.index) ∧
      ¬ ((0x12: Nat) = 0x02 ∨ (0x12 : Nat) = 0x05 ∨ (0x12 : Nat) = 0x0a ∨ (0x12 : Nat) = 0x0d) := by
  decide

set_option maxRecDepth 4096 in
/-- C6 amended: flag decoding accepts a byte if and only if its low three bits
are `0b101` (table) or `0b010` (index); bit 3 selects interior (0) or leaf (1)
and bits 4-7 are ignored, so besides 0x02, 0x05, 0x0a, 0x0d (which decode to
the claimed kind/type combinations) any byte agreeing with one of them on the
low three bits is accepted.  A rejected byte yields `none` (the caller panics);
there is no `BadFlag` error. -/
theorem c6_amended (flag : Nat) (hflag : flag < 256) :
    ((pageFlagNew flag).isSome ↔ (flag &&& 0b0111 = 0b101 ∨ flag &&& 0b0111 = 0b010)) ∧
      pageFlagNew 0x02 = some (PageKindFlag.interior, PageTypeFlag.index) ∧
      pageFlagNew 0x05 = some (PageKindFlag.interior, PageTypeFlag.table) ∧
      pageFlagNew 0x0a = some (PageKindFlag.leaf, PageTypeFlag.index) ∧
      pageFlagNew 0x0d = some (PageKindFlag.leaf, PageTypeFlag.table) := by
  revert flag
  decide

/-- C6 witness: the amended theorem applied at the concrete flag byte `0x12`. -/
theorem c6_witness :
    ((pageFlagNew 0x12).isSome ↔
        ((0x12 : Nat) &&& 0b0111 = 0b101 ∨ (0x12 : Nat) &&& 0b0111 = 0b010)) ∧
      pageFlagNew 0x02 = some (PageKindFlag.interior, PageTypeFlag.index) ∧
      pageFlagNew 0x05 = some (PageKindFlag.interior, PageTypeFlag.table) ∧
      pageFlagNew 0x0a = some (PageKindFlag.leaf, PageTypeFlag.index) ∧
      pageFlagNew 0x0d = some (PageKindFlag.leaf, PageTypeFlag.table) :=
  c6_amended 0x12 (by decide)

/-- Embedding of `PageBuffer` (src/ctx/pager.rs): a page-sized byte vector plus
the additional offset applied to every default view (`SQLITE_HEADER_SIZE = 100`
on page 1, `0` elsewhere); `raw()` exposes `buffer` itself. -/
structure PageBuffer where
  offset : Nat
  buffer : List Nat
deriving DecidableEq

/-- State of the pager cache: the map from page id to loaded buffer
(`pages: RefCell<HashMap<u32, PageBuffer>>`), modelled as an association list. -/
structure PagerState where
  cache : List (Nat × PageBuffer)
deriving DecidableEq

/-- Lookup in the association list modelling the `HashMap` of cached pages. -/
def cacheLookup : List (Nat × PageBuffer) → Nat → Option PageBuffer
  | [], _ => none
  | (k, v) :: rest, p => if k = p then some v else cacheLookup rest p

/-- Model of the seekable byte source: `source` gives the byte at each absolute
offset, and a read of `len` bytes starting at `offset` yields those bytes
(`seek(SeekFrom::Start(offset))` followed by `read_exact`). -/
def sourceRead (source : Nat → Nat) (offset len : Nat) : List Nat :=
  (List.range len).map (fun j => source (offset + j))

/-- Embedding of `Pager::get_page` (src/ctx/pager.rs).  A cache hit returns the
stored buffer and touches nothing.  A miss computes the seek offset
`page_size as u32 * (page_id - 1)` — a `u32` multiplication, hence the explicit
`% 2 ^ 32` — reads exactly `page_size` bytes, tags page 1 with the 100-byte
header offset, inserts the buffer into the cache and returns it.  The third
component lists the `(offset, length)` reads issued to the source. -/
def getPage (source : Nat → Nat) (pageSize : Nat) (s : PagerState) (pageId : Nat) :
    PageBuffer × PagerState × List (Nat × Nat) :=
  match cacheLookup s.cache pageId with
  | some buf => (buf, s, [])
  | none =>
    let offset := (pageSize * (pageId - 1)) % 2 ^ 32
    let buffer := sourceRead source offset pageSize
    let buf : PageBuffer := ⟨if pageId = 1 then 100 else 0, buffer⟩
    (buf, ⟨(pageId, buf) :: s.cache⟩, [(offset, pageSize)])

/-- C5 counterexample: with page size 65536 the pager's Get(65537) seeks the
source to offset `(65536 * 65536) % 2 ^ 32 = 0`, not to
`(65537 - 1) * 65536 = 2 ^ 32`: the seek offset is computed in `u32` arithmetic
and wraps, so the claim fails for page ids with `(p - 1) * page_size ≥ 2 ^ 32`. -/
theorem c5_counterexample :
    (getPage (fun _ => 0) 65536 ⟨[]⟩ 65537).2.2 = [(0, 65536)] ∧
      (0 : Nat) ≠ (65537 - 1) * 65536 := by
  constructor
  · decide
  · decide

/-- C5 amended: for every page id `p ≥ 1` with `(p - 1) * page_size < 2 ^ 32`
(so the `u32` offset arithmetic does not wrap) and not yet cached, Get(p)
issues exactly one read of `page_size` bytes at offset `(p - 1) * page_size`,
returns a buffer whose underlying byte vector is exactly those `page_size`
bytes, and a second Get(p) returns the identical buffer, leaves the state
unchanged and issues no read. -/
theorem c5_amended (source : Nat → Nat) (pageSize : Nat) (s : PagerState) (p : Nat)
    (_hp : 1 ≤ p) (hwrap : pageSize * (p - 1) < 2 ^ 32)
    (hmiss : cacheLookup s.cache p = none) :
    (getPage source pageSize s p).2.2 = [((p - 1) * pageSize, pageSize)] ∧
      (getPage source pageSize s p).1.buffer =
        sourceRead source ((p - 1) * pageSize) pageSize ∧
      (getPage source pageSize s p).1.buffer.length = pageSize ∧
      getPage source pageSize (getPage source pageSize s p).2.1 p =
        ((getPage source pageSize s p).1, (getPage source pageSize s p).2.1, []) := by
  have hoff : (pageSize * (p - 1)) % 4294967296 = (p - 1) * pageSize := by
    rw [Nat.mod_eq_of_lt (by simpa using hwrap), Nat.mul_comm]
  refine ⟨?_, ?_, ?_, ?_⟩ <;>
    simp [getPage, hmiss, hoff, sourceRead, cacheLookup]

/-- C5 witness: the amended theorem applied to a concrete source, page size 4
and page id 3 on an empty cache. -/
theorem c5_witness :
    (getPage (fun j => j % 256) 4 ⟨[]⟩ 3).2.2 = [((3 - 1) * 4, 4)] ∧
      (getPage (fun j => j % 256) 4 ⟨[]⟩ 3).1.buffer =
        sourceRead (fun j => j % 256) ((3 - 1) * 4) 4 ∧
      (getPage (fun j => j % 256) 4 ⟨[]⟩ 3).1.buffer.length = 4 ∧
      getPage (fun j => j % 256) 4 (getPage (fun j => j % 256) 4 ⟨[]⟩ 3).2.1 3 =
        ((getPage (fun j => j % 256) 4 ⟨[]⟩ 3).1,
          (getPage (fun j => j % 256) 4 ⟨[]⟩ 3).2.1, []) :=
  c5_amended (fun j => j % 256) 4 ⟨[]⟩ 3 (by decide) (by decide) (by decide)

/-- Descriptor computed by `Payload::from_buf_with_payload_size`
(src/btree/payload.rs): total payload length, start/end offsets of the in-page
part within the cell content area, and the id of the next overflow page when
the payload spills. -/
structure PayloadDesc where
  length : Nat
  baseOffset : Nat
  baseOffsetEnd : Nat
  nextPage : Option Nat
deriving DecidableEq

/-- Big-endian integer value of a byte list (`zerocopy::big_endian::U32` reads). -/
def be32 (bytes : List Nat) : Nat := bytes.foldl (fun acc b => acc * 256 + b) 0

/-- Embedding of `<Table as PayloadCalculation>::max_page_payload`: `X = U - 35`. -/
def maxPagePayloadTable (usableSpace : Nat) : Nat := usableSpace - 35

/-- Embedding of `Payload::from_buf_with_payload_size` (src/btree/payload.rs,
table pages; the same arithmetic appears in src/structures/btree/cell/payload.rs).
`usableSpace` is `ctx.page_size - ctx.page_end_padding`; `content` is the cell
content area of the page; `offset` is the offset of the payload within it.
The `k` computation mirrors the Rust `isize` arithmetic (`tmod` is Rust's `%`)
and the final `as usize` cast (`emod (2 ^ 64)` then `toNat`).  The overflow
page number is read from the 4 bytes of the cell content area immediately
after the in-page payload; the source would panic if those 4 bytes were out of
bounds, which the theorems avoid by quantifying only over the read bytes. -/
def payloadFromBufWithPayloadSize (usableSpace : Nat) (content : List Nat)
    (offset payloadSize : Nat) : PayloadDesc :=
  let maxPagePayload := maxPagePayloadTable usableSpace
  let minPagePayload := (usableSpace - 12) * 32 / 255 - 23
  let k : Nat :=
    (((minPagePayload : Int) +
        ((payloadSize : Int) - (minPagePayload : Int)).tmod ((usableSpace : Int) - 4)).emod
      (2 ^ 64)).toNat
  let storedOverflow : Nat × Option Nat :=
    if payloadSize ≤ maxPagePayload then (payloadSize, none)
    else if k ≤ maxPagePayload then (k, some (payloadSize - k))
    else (minPagePayload, some (payloadSize - minPagePayload))
  let baseOffsetEnd := offset + storedOverflow.1
  let nextPage := storedOverflow.2.map (fun _ => be32 ((content.drop baseOffsetEnd).take 4))
  ⟨payloadSize, offset, baseOffsetEnd, nextPage⟩

/-- Claim-side formula `X` for table pages (from the spec, for comparison). -/
def specMaxInPage (u : Nat) : Nat := u - 35

/-- Claim-side formula `M = ((U - 12) * 32 / 255) - 23` (from the spec). -/
def specMinPayload (u : Nat) : Nat := (u - 12) * 32 / 255 - 23

/-- Claim-side formula `K = M + ((L - M) mod (U - 4))` (from the spec). -/
def specK (u l : Nat) : Nat := specMinPayload u + (l - specMinPayload u) % (u - 4)

/-- Helper: for payloads larger than `X` the Rust `isize` computation of `k`
agrees with the spec's natural-number formula `K = M + ((L - M) mod (U - 4))`. -/
theorem payload_k_eq_specK (u l : Nat) (hU1 : 512 ≤ u) (hU2 : u ≤ 65536)
    (hL : specMaxInPage u < l) :
    ((((u - 12) * 32 / 255 - 23 : Nat) : Int) +
        ((l : Int) - (((u - 12) * 32 / 255 - 23 : Nat) : Int)).tmod ((u : Int) - 4)).emod
      (2 ^ 64) = ((specK u l : Nat) : Int) := by
  have hm : (u - 12) * 32 / 255 - 23 < u - 35 := by omega
  have hminlt : (u - 12) * 32 / 255 - 23 < l := by
    have := hL
    unfold specMaxInPage at this
    omega
  have h1 : ((l : Int) - (((u - 12) * 32 / 255 - 23 : Nat) : Int)) =
      ((l - ((u - 12) * 32 / 255 - 23) : Nat) : Int) := by omega
  have h2 : ((u : Int) - 4) = ((u - 4 : Nat) : Int) := by omega
  rw [h1, h2, Int.tmod_eq_emod (Int.natCast_nonneg _) (Int.natCast_nonneg _),
    ← Int.natCast_mod]
  have h3 : ((((u - 12) * 32 / 255 - 23 : Nat) : Int) +
      ((l - ((u - 12) * 32 / 255 - 23)) % (u - 4) : Nat)) = ((specK u l : Nat) : Int) := by
    unfold specK specMinPayload
    push_cast
    ring
  rw [h3]
  refine Int.emod_eq_of_lt (Int.natCast_nonneg _) ?_
  have hr := Nat.mod_lt (l - ((u - 12) * 32 / 255 - 23)) (show 0 < u - 4 by omega)
  have hk : specK u l < 2 ^ 64 := by
    unfold specK specMinPayload
    omega
  exact_mod_cast hk

/-- C3: for every table-leaf payload of length `L` on a page with usable space
`U` (with `512 ≤ U ≤ 65536` so the spill arithmetic cannot underflow), letting
`X = U - 35`, `M = ((U - 12) * 32 / 255) - 23` and `K = M + ((L - M) mod (U - 4))`:
if `L ≤ X` all `L` bytes are stored in-page and there is no next-overflow-page
field; if `L > X` and `K ≤ X` then `K` bytes are in-page and `L - K` spill; else
`M` bytes are in-page and `L - M` spill; whenever overflow is present the
next-overflow-page number is the big-endian `u32` read from the 4 bytes of the
cell content area immediately after the in-page payload. -/
theorem c3_spill (u l offset : Nat) (content : List Nat)
    (hU1 : 512 ≤ u) (hU2 : u ≤ 65536) :
    (payloadFromBufWithPayloadSize u content offset l).length = l ∧
      (payloadFromBufWithPayloadSize u content offset l).baseOffset = offset ∧
      (l ≤ specMaxInPage u →
        (payloadFromBufWithPayloadSize u content offset l).baseOffsetEnd = offset + l ∧
          (payloadFromBufWithPayloadSize u content offset l).nextPage = none) ∧
      (specMaxInPage u < l → specK u l ≤ specMaxInPage u →
        (payloadFromBufWithPayloadSize u content offset l).baseOffsetEnd = offset + specK u l ∧
          (payloadFromBufWithPayloadSize u content offset l).nextPage =
            some (be32 ((content.drop (offset + specK u l)).take 4))) ∧
      (specMaxInPage u < l → specMaxInPage u < specK u l →
        (payloadFromBufWithPayloadSize u content offset l).baseOffsetEnd =
            offset + specMinPayload u ∧
          (payloadFromBufWithPayloadSize u content offset l).nextPage =
            some (be32 ((content.drop (offset + specMinPayload u)).take 4))) := by
  refine ⟨rfl, rfl, ?_, ?_, ?_⟩
  · intro hle
    have hle' : l ≤ maxPagePayloadTable u := hle
    simp [payloadFromBufWithPayloadSize, hle']
  · intro hgt hkle
    have hk := payload_k_eq_specK u l hU1 hU2 hgt
    have hgt' : ¬ l ≤ maxPagePayloadTable u := by
      unfold maxPagePayloadTable
      unfold specMaxInPage at hgt
      omega
    simp only [payloadFromBufWithPayloadSize, hk, if_neg hgt']
    have hkle' : specK u l ≤ maxPagePayloadTable u := hkle
    simp [hkle', Int.toNat_natCast]
  · intro hgt hkgt
    have hk := payload_k_eq_specK u l hU1 hU2 hgt
    have hgt' : ¬ l ≤ maxPagePayloadTable u := by
      unfold maxPagePayloadTable
      unfold specMaxInPage at hgt
      omega
    have hkgt' : ¬ specK u l ≤ maxPagePayloadTable u := by
      unfold maxPagePayloadTable
      unfold specMaxInPage at hkgt
      omega
    simp only [payloadFromBufWithPayloadSize, hk, if_neg hgt']
    simp [Int.toNat_natCast, hkgt', specMinPayload]

/-- C3 witness: usable space 512 and payload length 478 exercise the overflow
branch (`X = 477`, `M = 39`, `K = 478 > X`, so 39 bytes stay in-page and the
next overflow page is read from bytes 39-42 of the cell content area). -/
theorem c3_witness :
    ((payloadFromBufWithPayloadSize 512 (List.replicate 39 7 ++ [0, 0, 1, 2]) 0 478).length
        = 478 ∧
      (payloadFromBufWithPayloadSize 512 (List.replicate 39 7 ++ [0, 0, 1, 2]) 0 478).baseOffset
        = 0 ∧
      (478 ≤ specMaxInPage 512 →
        (payloadFromBufWithPayloadSize 512 (List.replicate 39 7 ++ [0, 0, 1, 2]) 0
              478).baseOffsetEnd = 0 + 478 ∧
          (payloadFromBufWithPayloadSize 512 (List.replicate 39 7 ++ [0, 0, 1, 2]) 0
              478).nextPage = none) ∧
      (specMaxInPage 512 < 478 → specK 512 478 ≤ specMaxInPage 512 →
        (payloadFromBufWithPayloadSize 512 (List.replicate 39 7 ++ [0, 0, 1, 2]) 0
              478).baseOffsetEnd = 0 + specK 512 478 ∧
          (payloadFromBufWithPayloadSize 512 (List.replicate 39 7 ++ [0, 0, 1, 2]) 0
              478).nextPage =
            some (be32 (((List.replicate 39 7 ++ [0, 0, 1, 2]).drop (0 + specK 512 478)).take
              4))) ∧
      (specMaxInPage 512 < 478 → specMaxInPage 512 < specK 512 478 →
        (payloadFromBufWithPayloadSize 512 (List.replicate 39 7 ++ [0, 0, 1, 2]) 0
              478).baseOffsetEnd = 0 + specMinPayload 512 ∧
          (payloadFromBufWithPayloadSize 512 (List.replicate 39 7 ++ [0, 0, 1, 2]) 0
              478).nextPage =
            some (be32 (((List.replicate 39 7 ++ [0, 0, 1, 2]).drop
              (0 + specMinPayload 512)).take 4)))) :=
  c3_spill 512 478 0 (List.replicate 39 7 ++ [0, 0, 1, 2]) (by decide) (by decide)

/-- Helper: the loop's returned suffix is never longer than the input. -/
theorem varIntFromBufferAux_length_le (bs : List Nat) (i value : Nat) :
    (varIntFromBufferAux bs i value).2.length ≤ bs.length := by
  obtain ⟨k, _, _, hdrop⟩ := varIntFromBufferAux_drop bs i value
  rw [hdrop]
  simp

/-- Helper: the varint loop strictly consumes at least the first byte of a
non-empty input. -/
theorem varIntFromBuffer_cons_lt (b : Nat) (bs : List Nat) :
    (varIntFromBuffer (b :: bs)).2.length < (b :: bs).length := by
  simp only [varIntFromBuffer, varIntFromBufferAux]
  norm_num
  by_cases hb : b >>> 7 = 0
  · simp [hb]
  · simp only [if_neg hb]
    have h := varIntFromBufferAux_length_le bs 1 (wrap64 (b &&& 255 >>> 1))
    omega

/-- Field values produced by `Record::from_buf` (the `RecordType` enum in
src/record.rs).  Integer variants carry the signed value as `Int`; `f64`
carries the raw bit pattern (floating point is not interpreted here); `str`
carries the raw bytes (the source additionally requires them to be UTF-8,
which no claim touches). -/
inductive RecordType where
  | null
  | i8 (v : Int)
  | i16 (v : Int)
  | i24 (v : Int)
  | i32 (v : Int)
  | i48 (v : Int)
  | i64 (v : Int)
  | f64 (bits : Nat)
  | zero
  | one
  | reserved
  | blob (bytes : List Nat)
  | str (bytes : List Nat)
deriving DecidableEq

/-- Panics of `Record::from_buf`, modelled as errors: out-of-bounds header
slicing (including a negative or too-large header length), the
`assert!(body.is_empty())` at the end of the header, out-of-bounds body
slicing, the bound assertions of `ux::i24::new` / `ux::i48::new`, and the
`unreachable!()` arm hit by negative serial types. -/
inductive RecErr where
  | headerOverrun
  | bodyNotEmpty
  | bodyOverrun
  | i24OutOfRange
  | i48OutOfRange
  | negativeSerialType
deriving DecidableEq

/-- Embedding of the `i64_from_bytes` closure in `Record::from_buf`:
fold the bytes big-endian into an `i64` bit pattern (`(n << 8) | b`). -/
def i64FromBytes (bytes : List Nat) : Nat :=
  bytes.foldl (fun acc b => wrap64 (acc <<< 8) ||| b) 0

/-- Embedding of the `take_bytes` closure: split `n` bytes off the body,
failing (source: slice panic) if the body is too short. -/
def takeBytes (n : Nat) (body : List Nat) : Except RecErr (List Nat × List Nat) :=
  if n ≤ body.length then .ok (body.take n, body.drop n) else .error .bodyOverrun

/-- Embedding of the serial-type dispatch in `Record::from_buf`: decode one
field of serial type `st` from the front of `body`.  Serial types 1, 2, 4, 6
sign-extend via the Rust `as i8` / `as i16` / `as i32` casts and the `i64`
shift wrap-around; serial types 3 and 5 pass the non-negative 24/48-bit fold
result straight to `ux::i24::new` / `ux::i48::new`, whose bound assertions
fail when the high bit is set; serial types 10 and 11 produce the `Reserved`
field value. -/
def decodeField (st : Int) (body : List Nat) : Except RecErr (RecordType × List Nat) :=
  if st = 0 then .ok (.null, body)
  else if st = 1 then do
    let (bs, body) ← takeBytes 1 body
    .ok (.i8 (toSigned 8 (i64FromBytes bs)), body)
  else if st = 2 then do
    let (bs, body) ← takeBytes 2 body
    .ok (.i16 (toSigned 16 (i64FromBytes bs)), body)
  else if st = 3 then do
    let (bs, body) ← takeBytes 3 body
    let v := i64FromBytes bs
    if v < 2 ^ 23 then .ok (.i24 v, body) else .error .i24OutOfRange
  else if st = 4 then do
    let (bs, body) ← takeBytes 4 body
    .ok (.i32 (toSigned 32 (i64FromBytes bs)), body)
  else if st = 5 then do
    let (bs, body) ← takeBytes 6 body
    let v := i64FromBytes bs
    if v < 2 ^ 47 then .ok (.i48 v, body) else .error .i48OutOfRange
  else if st = 6 then do
    let (bs, body) ← takeBytes 8 body
    .ok (.i64 (toSigned 64 (i64FromBytes bs)), body)
  else if st = 7 then do
    let (bs, body) ← takeBytes 8 body
    .ok (.f64 (i64FromBytes bs), body)
  else if st = 8 then .ok (.zero, body)
  else if st = 9 then .ok (.one, body)
  else if st = 10 ∨ st = 11 then .ok (.reserved, body)
  else if 12 ≤ st ∧ st % 2 = 0 then do
    let (bs, body) ← takeBytes ((st - 12) / 2).toNat body
    .ok (.blob bs, body)
  else if 13 ≤ st ∧ st % 2 = 1 then do
    let (bs, body) ← takeBytes ((st - 13) / 2).toNat body
    .ok (.str bs, body)
  else .error .negativeSerialType

/-- Embedding of the field loop in `Record::from_buf`: while the header slice
is non-empty, read a serial-type varint from it and decode one field from the
body; when the header is exhausted, `assert!(body.is_empty())`.  The `fuel`
argument only bounds the recursion: every iteration consumes at least one
header byte (`varIntFromBuffer_cons_lt`), so with `fuel ≥ header.length` the
fuel-exhaustion case is unreachable (`decodeFieldsFuel_fuel_irrel`). -/
def decodeFieldsFuel : Nat → List Nat → List Nat → Except RecErr (List RecordType)
  | _, [], body => if body.isEmpty then .ok [] else .error .bodyNotEmpty
  | 0, _ :: _, _ => .error .headerOverrun
  | fuel + 1, b :: rest', body =>
    match decodeField (varIntFromBuffer (b :: rest')).1 body with
    | .error e => .error e
    | .ok (f, body') =>
      match decodeFieldsFuel fuel (varIntFromBuffer (b :: rest')).2 body' with
      | .error e => .error e
      | .ok fs => .ok (f :: fs)

/-- Helper: the fuel bound is irrelevant as long as it covers the header
length, so `decodeFields` below is exactly the source's loop. -/
theorem decodeFieldsFuel_fuel_irrel : ∀ (fuel fuel' : Nat) (header body : List Nat),
    header.length ≤ fuel → header.length ≤ fuel' →
    decodeFieldsFuel fuel header body = decodeFieldsFuel fuel' header body := by
  intro fuel
  induction fuel with
  | zero =>
    intro fuel' header body h h'
    match header with
    | [] =>
      match fuel' with
      | 0 => rfl
      | _ + 1 => rfl
    | b :: rest' => simp at h
  | succ f ih =>
    intro fuel' header body h h'
    match header with
    | [] =>
      match fuel' with
      | 0 => rfl
      | _ + 1 => rfl
    | b :: rest' =>
      match fuel' with
      | 0 => simp at h'
      | f' + 1 =>
        simp only [decodeFieldsFuel]
        have hcons := varIntFromBuffer_cons_lt b rest'
        have hrec := ih f' (varIntFromBuffer (b :: rest')).2
        cases decodeField (varIntFromBuffer (b :: rest')).1 body with
        | error e => rfl
        | ok p =>
          obtain ⟨f1, body'⟩ := p
          have h1 : (varIntFromBuffer (b :: rest')).2.length ≤ f := by
            simp at h
            simp at hcons
            omega
          have h2 : (varIntFromBuffer (b :: rest')).2.length ≤ f' := by
            simp at h'
            simp at hcons
            omega
          simp only [hrec body' h1 h2]

/-- Field loop of `Record::from_buf`, entered with enough fuel for the whole
header. -/
def decodeFields (header body : List Nat) : Except RecErr (List RecordType) :=
  decodeFieldsFuel header.length header body

/-- Embedding of `Record::from_buf` (src/record.rs): read the inclusive header
length varint, split the rest of the buffer into the remaining header (the
serial-type varints) and the body, and decode the fields.  The row id passed
through by the source is irrelevant to the fields and omitted. -/
def recordFromBuf (buf : List Nat) : Except RecErr (List RecordType) :=
  let headerLength := (varIntFromBuffer buf).1
  let buf1 := (varIntFromBuffer buf).2
  let remaining : Int := headerLength - (buf.length - buf1.length : Nat)
  if remaining < 0 ∨ buf1.length < remaining.toNat then .error .headerOverrun
  else decodeFields (buf1.take remaining.toNat) (buf1.drop remaining.toNat)

/-- C7: evaluation of the code at the failing input.  The record
`[0x02, 0x03, 0xFF, 0xFF, 0xFF]` (header length 2, one field of serial type 3,
3-byte body `0xFF 0xFF 0xFF` with the high bit set) should decode to the
signed 24-bit big-endian value `-1`, but `Record::from_buf` folds the bytes
without sign extension into `16777215` and `ux::i24::new`'s bound assertion
fails (a panic), modelled here as the `i24OutOfRange` error; serial type 5
behaves the same way for 6-byte bodies with the high bit set. -/
theorem c7_code_evaluation :
    recordFromBuf [0x02, 0x03, 0xFF, 0xFF, 0xFF] = .error .i24OutOfRange ∧
      toSigned 24 (i64FromBytes [0xFF, 0xFF, 0xFF]) = -1 ∧
      recordFromBuf [0x02, 0x05, 0x80, 0x00, 0x00, 0x00, 0x00, 0x00] =
        .error .i48OutOfRange ∧
      toSigned 48 (i64FromBytes [0x80, 0x00, 0x00, 0x00, 0x00, 0x00]) = -(2 ^ 47) := by
  refine ⟨rfl, by decide, rfl, by decide⟩

/-- C8 counterexample: a record containing a field of serial type 10 decodes
successfully to the `Reserved` field value — record decoding does not fail, and
there is no `ReservedSerialType` error anywhere in the code. -/
theorem c8_counterexample :
    recordFromBuf [0x02, 0x0A] = .ok [.reserved] := rfl

/-- C8 amended: for every record containing a field whose serial type is 10 or
11, record decoding produces the `Reserved` field value for that field —
universally, for every body `decodeField` returns `.reserved` consuming no
body bytes — and the field loop continues normally past it: wherever the
remaining header starts with serial type 10 or 11, the decoded fields are
`.reserved` consed onto the decoding of the rest of the record, whatever the
remaining header and body hold.  Decoding never fails at such a field; the
code has no `ReservedSerialType` error. -/
theorem c8_amended (n : Nat) (hn : n = 10 ∨ n = 11) (body rest : List Nat) (fuel : Nat) :
    decodeField (n : Int) body = .ok (.reserved, body) ∧
      decodeFieldsFuel (fuel + 1) (n :: rest) body =
        (decodeFieldsFuel fuel rest body).map (fun fs => RecordType.reserved :: fs) := by
  have hd : decodeField (n : Int) body = .ok (.reserved, body) := by
    rcases hn with h | h <;> subst h <;> rfl
  refine ⟨hd, ?_⟩
  have hv : varIntFromBuffer (n :: rest) = ((n : Int), rest) := by
    rcases hn with h | h <;> subst h <;> rfl
  simp only [decodeFieldsFuel, hv]
  rw [hd]
  cases hfe : decodeFieldsFuel fuel rest body <;> simp [hfe, Except.map]

/-- C8 witness: the amended theorem applied at serial type 10, body `[5]`,
remaining header `[1]` and fuel 1. -/
theorem c8_witness :
    decodeField ((10 : Nat) : Int) [5] = .ok (.reserved, [5]) ∧
      decodeFieldsFuel (1 + 1) (10 :: [1]) [5] =
        (decodeFieldsFuel 1 [1] [5]).map (fun fs => RecordType.reserved :: fs) :=
  c8_amended 10 (Or.inl rfl) [5] [1] 1

/-- Embedding of the next-page discovery in `Chain::pages` (src/memory/chain.rs):
the big-endian `u32` in bytes `[0..4]` of an overflow page, with
`NonZeroUsize::new` turning `0` into "end of chain". -/
def chainNext (page : List Nat) : Option Nat :=
  let n := be32 (page.take 4)
  if n = 0 then none else some n

/-- Overflow part of `Chain::pages`: follow next-page ids through the pager,
yielding each overflow page as the FULL page buffer returned by
`pager.get` — the code slices neither the leading 4 pointer bytes nor the
tail beyond the usable size.  `fuel` bounds the walk (the source would loop
forever on a cyclic chain). -/
def chainPagesAux (pager : Nat → List Nat) : Nat → Option Nat → List (List Nat)
  | _, none => []
  | 0, some _ => []
  | fuel + 1, some pid =>
    let page := pager pid
    page :: chainPagesAux pager fuel (chainNext page)

/-- Embedding of `Chain::pages`: the in-cell payload slice first, then the
overflow pages. -/
def chainPages (pager : Nat → List Nat) (fuel : Nat) (first : List Nat)
    (next : Option Nat) : List (List Nat) :=
  first :: chainPagesAux pager fuel next

/-- The `skip_while` phase of `Chain::copy_to_slice`: drop pages that end
strictly before `offset`, accumulating the position `pos`. -/
def copySkip (offset : Nat) : List (List Nat) → Nat → List (List Nat) × Nat
  | [], pos => ([], pos)
  | p :: ps, pos =>
    if pos + p.length < offset then copySkip offset ps (pos + p.length)
    else (p :: ps, pos)

/-- The fill loop of `Chain::copy_to_slice`: copy whole pages while the
remaining buffer is longer than the page, finish from the final page, and
panic (`none`) when the pages run out first. -/
def copyFill : List (List Nat) → Nat → Option (List Nat)
  | [], _ => none
  | data :: rest, blen =>
    if blen > data.length then (copyFill rest (blen - data.length)).map (fun t => data ++ t)
    else some (data.take blen)

/-- Embedding of `Chain::copy_to_slice` over an already-materialised page
sequence: skip to `offset`, re-slice the first kept page from `offset - pos`,
then fill a buffer of `bufLen` bytes. -/
def chainCopyToSlice (pages : List (List Nat)) (offset bufLen : Nat) : Option (List Nat) :=
  match copySkip offset pages 0 with
  | ([], _) => copyFill [] bufLen
  | (p :: ps, pos) => copyFill ((p.drop (offset - pos)) :: ps) bufLen

/-- C4: evaluation of the code at the failing input.  A payload of total
length 7 whose in-page part is `[1, 2, 3]` and whose single overflow page
(page 2, page size 8) is `[0, 0, 0, 0, 9, 9, 9, 9]` must, per the claim,
stitch to the in-page bytes followed by the overflow page's bytes `[4 .. U]`,
i.e. `[1, 2, 3, 9, 9, 9, 9]`.  The code instead copies the overflow page from
byte 0, including its 4-byte next-page pointer, producing
`[1, 2, 3, 0, 0, 0, 0]`. -/
theorem c4_code_evaluation :
    chainCopyToSlice
        (chainPages (fun pid => if pid = 2 then [0, 0, 0, 0, 9, 9, 9, 9] else List.replicate 8 0)
          1 [1, 2, 3] (some 2)) 0 7 = some [1, 2, 3, 0, 0, 0, 0] ∧
      [1, 2, 3] ++
          (((fun pid => if pid = 2 then [0, 0, 0, 0, 9, 9, 9, 9] else List.replicate 8 0) 2).drop
            4).take 4 = [1, 2, 3, 9, 9, 9, 9] ∧
      ([1, 2, 3, 0, 0, 0, 0] : List Nat) ≠ [1, 2, 3, 9, 9, 9, 9] := by
  refine ⟨rfl, rfl, by decide⟩

/-- Abstraction of a decoded B-tree page reachable from a root, as consumed by
`traverse` (src/btree/mod.rs): a leaf holds its cells (in cell-pointer-array
order, abstracted as opaque values); an interior page holds, in
cell-pointer-array order, the subtrees behind its left-child pointers and the
subtree behind its right-child pointer.  Each page records its page id, the
argument passed to `ctx.pager.get_page` when it is fetched. -/
inductive PTree where
  | leaf (pid : Nat) (cells : List Nat)
  | interior (pid : Nat) (children : List PTree) (rtree : PTree)

/-- Page id of a tree node (the value handed to `get_page`). -/
def ptId : PTree → Nat
  | .leaf pid _ => pid
  | .interior pid _ _ => pid

mutual
/-- Cells of a subtree in left-to-right in-order: a leaf contributes its cells
in cell-pointer-array order; an interior page contributes the cells behind its
left-child pointers in order, then the cells behind its right-child pointer.
This is the claim-side order against which the traversal is compared. -/
def inorder : PTree → List Nat
  | .leaf _ cells => cells
  | .interior _ children rtree => inorderList children ++ inorder rtree
/-- In-order cells of a list of sibling subtrees, left to right. -/
def inorderList : List PTree → List Nat
  | [] => []
  | t :: ts => inorder t ++ inorderList ts
end

mutual
/-- Size measure used to show the traversal terminates. -/
def ptSize : PTree → Nat
  | .leaf _ cells => 2 + cells.length
  | .interior _ children rtree => 1 + ptSizeList children + ptSize rtree
/-- Total size of a list of subtrees. -/
def ptSizeList : List PTree → Nat
  | [] => 0
  | t :: ts => ptSize t + ptSizeList ts
end

/-- Embedding of `Vec::pop`: remove and return the last element. -/
def vecPop {α : Type} (stack : List α) : Option (List α × α) :=
  match stack.getLast? with
  | none => none
  | some top => some (stack.dropLast, top)

/-- Embedding of `Vec::insert`: insert `x` at index `i` (always in bounds
where used, since the traversal inserts at the captured old length). -/
def vecInsert {α : Type} (stack : List α) (i : Nat) (x : α) : List α :=
  stack.take i ++ x :: stack.drop i

/-- Embedding of the interior-page branch of `traverse`: capture
`insert_point = stack.len()` once, then `stack.insert(insert_point, child)`
for each left-child page in cell order and finally the right-pointer page. -/
def pushChildren (stack : List PTree) (pages : List PTree) : List PTree :=
  pages.foldl (fun s p => vecInsert s stack.length p) stack

/-- Helper: a successful `Vec::pop` splits the vector into its last element
and the rest. -/
theorem vecPop_eq_some {α : Type} (stack rest : List α) (top : α)
    (h : vecPop stack = some (rest, top)) : stack = rest ++ [top] := by
  unfold vecPop at h
  match hl : stack.getLast? with
  | none => rw [hl] at h; simp at h
  | some x =>
    rw [hl] at h
    simp at h
    obtain ⟨h1, h2⟩ := h
    subst h1 h2
    have hne : stack ≠ [] := by
      intro he
      subst he
      simp at hl
    have hx : stack.getLast hne = x := by
      have hg := List.getLast?_eq_getLast stack hne
      rw [hg] at hl
      exact Option.some_inj.mp hl
    rw [← hx]
    exact (List.dropLast_append_getLast hne).symm

/-- Helper: `Vec::pop` fails only on the empty vector. -/
theorem vecPop_eq_none {α : Type} (stack : List α) (h : vecPop stack = none) : stack = [] := by
  unfold vecPop at h
  match hl : stack.getLast? with
  | some x => rw [hl] at h; simp at h
  | none => exact List.getLast?_eq_none_iff.mp hl

/-- Helper: folding `Vec::insert` at the captured index appends the pages in
reverse order after the existing stack. -/
theorem pushChildren_eq_aux (rest : List PTree) :
    ∀ (pages acc : List PTree),
      pages.foldl (fun s p => vecInsert s rest.length p) (rest ++ acc) =
        rest ++ (pages.reverse ++ acc) := by
  intro pages
  induction pages with
  | nil => intro acc; simp
  | cons p ps ih =>
    intro acc
    have hins : vecInsert (rest ++ acc) rest.length p = rest ++ p :: acc := by
      unfold vecInsert
      rw [List.take_left, List.drop_left]
    simp only [List.foldl_cons, hins, ih (p :: acc)]
    simp

/-- Helper: the interior step leaves the pending stack below and places the
children above it, reversed, so they pop left-to-right. -/
theorem pushChildren_eq (rest pages : List PTree) :
    pushChildren rest pages = rest ++ pages.reverse := by
  have h := pushChildren_eq_aux rest pages []
  simpa [pushChildren] using h

/-- Helper: the size measure sums over appends. -/
theorem ptSizeList_append (a b : List PTree) :
    ptSizeList (a ++ b) = ptSizeList a + ptSizeList b := by
  induction a with
  | nil => simp [ptSizeList]
  | cons t ts ih => simp [ptSizeList, ih]; omega

/-- Helper: the size measure ignores order. -/
theorem ptSizeList_reverse (a : List PTree) : ptSizeList a.reverse = ptSizeList a := by
  induction a with
  | nil => rfl
  | cons t ts ih =>
    simp [ptSizeList, List.reverse_cons, ptSizeList_append, ih]
    omega

/-- Embedding of `traverse` (src/btree/mod.rs) run to completion: pop the top
of the stack; a leaf yields its cells in cell-pointer order before the next
pop; an interior page inserts the pages behind its left-child pointers (in
cell order) and then its right-pointer page, all at the captured index
`insert_point = stack.len()`, and yields nothing. -/
def traverseAll (stack : List PTree) : List Nat :=
  match h : vecPop stack with
  | none => []
  | some (rest, .leaf _ cells) => cells ++ traverseAll rest
  | some (rest, .interior _ children rtree) =>
      traverseAll (pushChildren rest (children ++ [rtree]))
termination_by ptSizeList stack
decreasing_by
  · have hs := vecPop_eq_some _ _ _ h
    subst hs
    simp [ptSizeList_append, ptSizeList, ptSize]
  · have hs := vecPop_eq_some _ _ _ h
    subst hs
    simp [pushChildren_eq, ptSizeList_append, ptSizeList_reverse, ptSizeList, ptSize]
    omega

/-- Helper: in-order cells sum over appends. -/
theorem inorderList_append (a b : List PTree) :
    inorderList (a ++ b) = inorderList a ++ inorderList b := by
  induction a with
  | nil => simp [inorderList]
  | cons t ts ih => simp [inorderList, ih]

/-- Helper: the stack invariant of the traversal — the pending stack, top
(last) first, contributes its subtrees' cells in order. -/
theorem traverseAll_eq (stack : List PTree) :
    traverseAll stack = inorderList stack.reverse := by
  induction stack using traverseAll.induct with
  | case1 stack h =>
    have h0 := vecPop_eq_none _ h
    subst h0
    rw [traverseAll]
    simp [vecPop, inorderList]
  | case2 stack rest pid cells h ih =>
    have hs := vecPop_eq_some _ _ _ h
    subst hs
    rw [traverseAll, h]
    dsimp only
    simp [List.reverse_append, inorderList_append, inorderList, inorder, ih]
  | case3 stack rest pid children rtree h ih =>
    have hs := vecPop_eq_some _ _ _ h
    subst hs
    rw [traverseAll, h]
    dsimp only
    rw [ih, pushChildren_eq]
    simp [List.reverse_append, inorderList_append, inorderList, inorder]

/-- C1: for every table B-tree reachable from a root page, the traversal
yields exactly the cells of the leaf pages in left-to-right in-order: each
leaf's cells in cell-pointer-array order, every interior page's left-child
subtrees in cell-pointer-array order before its right-child subtree. -/
theorem c1_traverse_inorder (t : PTree) : traverseAll [t] = inorder t := by
  have h := traverseAll_eq [t]
  simpa [inorderList] using h

/-- State of the iterator closure in `traverse`: the page stack and the
optional `leaf_iter` holding the remaining cells of the current leaf. -/
structure TravState where
  stack : List PTree
  leafIter : Option (List Nat)

/-- One invocation of the `from_fn` closure in `traverse`.  Returns the page
ids fetched from the pager during the invocation (`ctx.pager.get_page` is
called once per child pointer when an interior page is popped), the closure's
result (`none` = iterator exhausted, `some none` = continue without a cell,
`some (some c)` = cell yielded), and the next state. -/
def travStep : TravState → List Nat × Option (Option Nat) × TravState
  | ⟨stack, none⟩ =>
    match vecPop stack with
    | none => ([], none, ⟨stack, none⟩)
    | some (rest, .leaf _ cells) => ([], some none, ⟨rest, some cells⟩)
    | some (rest, .interior _ children rtree) =>
        ((children ++ [rtree]).map ptId, some none,
          ⟨pushChildren rest (children ++ [rtree]), none⟩)
  | ⟨stack, some []⟩ => ([], some none, ⟨stack, none⟩)
  | ⟨stack, some (c :: cs)⟩ => ([], some (some c), ⟨stack, some cs⟩)

/-- One pull of the flattened iterator: run closure invocations until a cell
is yielded or the iterator is exhausted, collecting every page id fetched on
the way.  `fuel` bounds the number of invocations; a run that yields within
its fuel behaves like the unbounded iterator. -/
def pullFuel : Nat → TravState → List Nat × Option Nat × TravState
  | 0, s => ([], none, s)
  | fuel + 1, s =>
    match travStep s with
    | (f, none, s') => (f, none, s')
    | (f, some (some c), s') => (f, some c, s')
    | (f, some none, s') =>
      let r := pullFuel fuel s'
      (f ++ r.1, r.2.1, r.2.2)

/-- C9 counterexample: take the tree whose root (page 1) is an interior page
with one left child, leaf page 2 holding cell `0`, and right child leaf page 3
holding cell `1`.  The pull that yields the first cell fetches pages 2 AND 3
(the interior branch of `traverse` calls `get_page` for every child pointer of
the popped page at once), yet the cell it yields, `0`, lives in page 2's
subtree only — page 3's cells `[1]` do not contain it, so a page not required
to produce that next cell was fetched. -/
theorem c9_counterexample :
    (pullFuel 3 ⟨[PTree.interior 1 [PTree.leaf 2 [0]] (PTree.leaf 3 [1])], none⟩).1 = [2, 3] ∧
      (pullFuel 3 ⟨[PTree.interior 1 [PTree.leaf 2 [0]] (PTree.leaf 3 [1])], none⟩).2.1 =
        some 0 ∧
      inorder (PTree.leaf 3 [1]) = [1] ∧ (0 : Nat) ∉ ([1] : List Nat) := by
  refine ⟨rfl, rfl, rfl, by decide⟩

/-- C9 amended: fetching remains lazy at page granularity, but with
per-interior-page eagerness: a single iterator step either fetches no page at
all (leaf pops, cell yields, exhaustion), or pops an interior page and fetches
exactly the pages behind that page's child pointers — its left children in
cell-pointer-array order followed by its right child — and nothing deeper; in
particular no page is fetched before its parent page has been visited. -/
theorem c9_amended (s : TravState) :
    (travStep s).1 = [] ∨
      ∃ rest pid children rtree,
        s.leafIter = none ∧
          vecPop s.stack = some (rest, PTree.interior pid children rtree) ∧
          (travStep s).1 = (children ++ [rtree]).map ptId := by
  obtain ⟨stack, li⟩ := s
  match li with
  | some [] => left; rfl
  | some (c :: cs) => left; rfl
  | none =>
    match hv : vecPop stack with
    | none => left; simp [travStep, hv]
    | some (rest, PTree.leaf pid cells) => left; simp [travStep, hv]
    | some (rest, PTree.interior pid children rtree) =>
      right
      exact ⟨rest, pid, children, rtree, rfl, rfl, by simp [travStep, hv]⟩
